import Mathlib

/-!
Shallow embedding of `src/database/database.py` of the stamp-management-system
repository: a SQLite-backed store for a stamp collection and a table of
postage rates.

Modelling conventions:
* The two SQLite tables become two Lean lists inside a `DB` structure, with
  the autoincrement rowid counters made explicit (`nextStampId`, `nextRateId`;
  SQLite rowids start at 1).
* Python numbers (`value`, `max_weight`) are modelled as rationals `ℚ`;
  Python `int(...)` applied to a number is truncation toward zero
  (`pyIntTrunc`).
* `CURRENT_TIMESTAMP` becomes an explicit `now : Nat` argument to the
  operations that write it; the insert-time timestamp of a fresh row is `0`.
* A method that raises becomes a function returning the unchanged state
  paired with `Except.error msg`; boolean / count results of the Python
  methods are returned alongside the new state.
-/

namespace StampDB

/-- Python `int(x)` on a number: truncation toward zero, modelled on `ℚ` as
truncating division of the numerator by the denominator. -/
def pyIntTrunc (q : ℚ) : ℤ :=
  Int.tdiv q.num (q.den : ℤ)

/-- A row of the `stamps` table (schema columns used by `database.py`). -/
structure Stamp where
  id : Nat
  name : String
  value : ℚ
  currency : String
  euro_cents : ℤ
  n : ℤ
  postage_rate_id : Option Nat
  updated_at : Nat
  deriving DecidableEq, Repr

/-- A row of the `postage_rates` table. -/
structure Rate where
  id : Nat
  name : String
  value : ℚ
  max_weight : ℚ
  updated_at : Nat
  deriving DecidableEq, Repr

/-- The state of the store: both tables plus the autoincrement counters. -/
structure DB where
  stamps : List Stamp
  rates : List Rate
  nextStampId : Nat
  nextRateId : Nat
  deriving DecidableEq, Repr

/-- A freshly initialised store with no rows (rowids start at 1 in SQLite). -/
def db0 : DB := ⟨[], [], 1, 1⟩

/-- The `euro_cents` computation of `add_stamp_to_collection`
(`database.py` lines 76-81): `int(value * 100)` for EUR,
`int((value / 1936.27) * 100)` for ITL, `None` marking the `ValueError`. -/
def euroCentsOf (value : ℚ) (currency : String) : Option ℤ :=
  if currency = "EUR" then some (pyIntTrunc (value * 100))
  else if currency = "ITL" then some (pyIntTrunc (value / 1936.27 * 100))
  else none

/-- `add_stamp_to_collection(name, value, currency, n, postage_rate_id)`:
computes `euro_cents` from the currency, raises
`ValueError("Currency must be EUR or ITL")` on any other currency, otherwise
INSERTs the row and returns the new rowid. -/
def add_stamp_to_collection (db : DB) (name : String) (value : ℚ)
    (currency : String) (n : ℤ) (postage_rate_id : Option Nat) :
    DB × Except String Nat :=
  match euroCentsOf value currency with
  | none => (db, Except.error "Currency must be EUR or ITL")
  | some ec =>
      let s : Stamp :=
        { id := db.nextStampId, name := name, value := value,
          currency := currency, euro_cents := ec, n := n,
          postage_rate_id := postage_rate_id, updated_at := 0 }
      ({ db with stamps := db.stamps ++ [s],
                 nextStampId := db.nextStampId + 1 },
       Except.ok db.nextStampId)

/-- The LEFT JOIN of `get_stamp_collection`: the name of the postage rate a
stamp references, `none` when `postage_rate_id` is NULL or dangling. -/
def rateNameFor (rates : List Rate) (prid : Option Nat) : Option String :=
  match prid with
  | none => none
  | some i => (rates.find? (fun r => r.id = i)).map (fun r => r.name)

/-- Ordering of the result rows of `get_stamp_collection`
(`ORDER BY s.name`). -/
def stampRowLE (a b : Stamp × Option String) : Prop :=
  a.1.name ≤ b.1.name

instance : DecidableRel stampRowLE := fun a b =>
  inferInstanceAs (Decidable (a.1.name ≤ b.1.name))

instance : IsTotal (Stamp × Option String) stampRowLE :=
  ⟨fun a b => le_total a.1.name b.1.name⟩

instance : IsTrans (Stamp × Option String) stampRowLE :=
  ⟨fun _ _ _ h h' => le_trans h h'⟩

/-- `get_stamp_collection()`: every stamp LEFT JOINed with the name of its
referenced postage rate, ordered by stamp name ascending. -/
def get_stamp_collection (db : DB) : List (Stamp × Option String) :=
  (db.stamps.map (fun s => (s, rateNameFor db.rates s.postage_rate_id))).insertionSort
    stampRowLE

/-- `update_stamp_quantity(stamp_id, new_quantity)`: UPDATE `n` and
`updated_at` of the row with the given id; returns `rowcount > 0`. -/
def update_stamp_quantity (db : DB) (stamp_id : Nat) (new_quantity : ℤ)
    (now : Nat) : DB × Bool :=
  ({ db with stamps := db.stamps.map (fun s =>
      if s.id = stamp_id then { s with n := new_quantity, updated_at := now }
      else s) },
   db.stamps.any (fun s => s.id = stamp_id))

/-- `delete_stamp_from_collection(stamp_id)`: DELETE the row with the given
id; returns `rowcount > 0`. -/
def delete_stamp_from_collection (db : DB) (stamp_id : Nat) : DB × Bool :=
  ({ db with stamps := db.stamps.filter (fun s => ¬ s.id = stamp_id) },
   db.stamps.any (fun s => s.id = stamp_id))

/-- `clear_stamp_collection()`: DELETE every stamp; returns `rowcount`, the
number of rows deleted. -/
def clear_stamp_collection (db : DB) : DB × Nat :=
  ({ db with stamps := [] }, db.stamps.length)

/-- `add_postage_rate(name, value, max_weight)`.

Modelled from the spec: the schema file `schema.sql` is not under `src/`, so
the UNIQUE constraint making `INSERT OR REPLACE` an upsert keyed by `name` is
taken from the spec ("upsert keyed by `name` — if a rate with that name
exists, its `id`, `value`, `max_weight` are fully replaced"). SQLite's
REPLACE deletes the conflicting row and inserts a fresh row with a fresh
rowid, which is returned. -/
def add_postage_rate (db : DB) (name : String) (value : ℚ)
    (max_weight : ℚ) : DB × Nat :=
  let kept := db.rates.filter (fun r => ¬ r.name = name)
  let r : Rate :=
    { id := db.nextRateId, name := name, value := value,
      max_weight := max_weight, updated_at := 0 }
  ({ db with rates := kept ++ [r], nextRateId := db.nextRateId + 1 },
   db.nextRateId)

/-- Ordering of the result rows of `get_postage_rates` (`ORDER BY name`). -/
def rateLE (a b : Rate) : Prop := a.name ≤ b.name

instance : DecidableRel rateLE := fun a b =>
  inferInstanceAs (Decidable (a.name ≤ b.name))

instance : IsTotal Rate rateLE := ⟨fun a b => le_total a.name b.name⟩

instance : IsTrans Rate rateLE := ⟨fun _ _ _ h h' => le_trans h h'⟩

/-- `get_postage_rates()`: all rates ordered by name ascending. -/
def get_postage_rates (db : DB) : List Rate :=
  db.rates.insertionSort rateLE

/-- `get_rate_by_name(name)`: `fetchone` on `WHERE name = ?`; `none` models
Python's `None` when no row matches. -/
def get_rate_by_name (db : DB) (name : String) : Option Rate :=
  db.rates.find? (fun r => r.name = name)

/-- `update_rate(name, new_value, new_max_weight)`: UPDATE `value`,
`max_weight` and `updated_at` of the row with the given name; returns
`rowcount > 0`. -/
def update_rate (db : DB) (name : String) (new_value : ℚ)
    (new_max_weight : ℚ) (now : Nat) : DB × Bool :=
  ({ db with rates := db.rates.map (fun r =>
      if r.name = name then
        { r with value := new_value, max_weight := new_max_weight,
                 updated_at := now }
      else r) },
   db.rates.any (fun r => r.name = name))

/-- `delete_rate(name)`: DELETE the row with the given name; returns
`rowcount > 0`. -/
def delete_rate (db : DB) (name : String) : DB × Bool :=
  ({ db with rates := db.rates.filter (fun r => ¬ r.name = name) },
   db.rates.any (fun r => r.name = name))

/-- The states reachable from a fresh store through the public mutating
methods of `database.py`. -/
inductive Reach : DB → Prop where
  | init : Reach db0
  | add_stamp (db name value currency n prid) : Reach db →
      Reach (add_stamp_to_collection db name value currency n prid).1
  | upd_qty (db i q t) : Reach db → Reach (update_stamp_quantity db i q t).1
  | del_stamp (db i) : Reach db → Reach (delete_stamp_from_collection db i).1
  | clear (db) : Reach db → Reach (clear_stamp_collection db).1
  | add_rate (db name v w) : Reach db → Reach (add_postage_rate db name v w).1
  | upd_rate (db name v w t) : Reach db → Reach (update_rate db name v w t).1
  | del_rate (db name) : Reach db → Reach (delete_rate db name).1

/-- Modelled from the spec: `round` as in the spec's conversion formula
(rounding to the nearest integer), used only to compare against the code. -/
def specRound (q : ℚ) : ℤ := round q

/-- The spec's stated conversion rule, written from its words:
`EUR → round(value × 100)`, `ITL → round((value / 1936.27) × 100)`. -/
def specEuroCents (value : ℚ) (currency : String) : Option ℤ :=
  if currency = "EUR" then some (specRound (value * 100))
  else if currency = "ITL" then some (specRound (value / 1936.27 * 100))
  else none

/-! ### Invariant predicates -/

/-- Every stored stamp's `euro_cents` is the conversion of its
`(value, currency)` pair, as computed by `add_stamp_to_collection`. -/
def StampsConverted (db : DB) : Prop :=
  ∀ s ∈ db.stamps, euroCentsOf s.value s.currency = some s.euro_cents

/-- No two postage rates share a name. -/
def RateNamesUnique (db : DB) : Prop :=
  db.rates.Pairwise (fun a b => a.name ≠ b.name)

section

attribute [local semireducible] Rat.mul Rat.inv Rat.add Rat.sub Rat.ofScientific

/-! ### Helper lemmas -/

theorem map_eq_self_of {α : Type} (l : List α) (f : α → α)
    (h : ∀ a ∈ l, f a = a) : l.map f = l := by
  induction l with
  | nil => rfl
  | cons a l ih =>
      simp only [List.map_cons, h a (by simp)]
      rw [ih (fun a ha => h a (by simp [ha]))]

theorem forall₂_map_self {α : Type} (R : α → α → Prop) (f : α → α)
    (l : List α) (h : ∀ a ∈ l, R a (f a)) : List.Forall₂ R l (l.map f) := by
  induction l with
  | nil => exact List.Forall₂.nil
  | cons a l ih =>
      exact List.Forall₂.cons (h a (by simp))
        (ih (fun a ha => h a (by simp [ha])))

theorem add_stamp_rates_unchanged (db : DB) (name : String) (value : ℚ)
    (currency : String) (n : ℤ) (prid : Option Nat) :
    (add_stamp_to_collection db name value currency n prid).1.rates =
      db.rates := by
  unfold add_stamp_to_collection
  cases euroCentsOf value currency <;> rfl

theorem stampsConverted_add (db : DB) (name : String) (value : ℚ)
    (currency : String) (n : ℤ) (prid : Option Nat)
    (h : StampsConverted db) :
    StampsConverted (add_stamp_to_collection db name value currency n prid).1 := by
  cases hec : euroCentsOf value currency with
  | none =>
      unfold add_stamp_to_collection
      rw [hec]
      exact h
  | some ec =>
      intro s hs
      unfold add_stamp_to_collection at hs
      rw [hec] at hs
      simp only [List.mem_append, List.mem_singleton] at hs
      rcases hs with hs | rfl
      · exact h s hs
      · exact hec

theorem stampsConverted_update (db : DB) (i : Nat) (q : ℤ) (t : Nat)
    (h : StampsConverted db) :
    StampsConverted (update_stamp_quantity db i q t).1 := by
  intro s' hs'
  simp only [update_stamp_quantity, List.mem_map] at hs'
  obtain ⟨s, hs, rfl⟩ := hs'
  by_cases hid : s.id = i <;> simp only [hid, if_true, if_false, ite_true,
    ite_false] <;> exact h s hs

theorem stampsConverted_delete (db : DB) (i : Nat)
    (h : StampsConverted db) :
    StampsConverted (delete_stamp_from_collection db i).1 := by
  intro s hs
  simp only [delete_stamp_from_collection, List.mem_filter] at hs
  exact h s hs.1

/-- C1, counterexample: at `value = 0.999`, `currency = "EUR"` the code
stores `euro_cents = 99` (truncation by Python `int`), while the spec's
formula `round(value × 100)` gives `100`, so the claimed equality fails. -/
theorem euroCents_trunc_ne_round :
    euroCentsOf 0.999 "EUR" = some 99 ∧
    specEuroCents 0.999 "EUR" = some 100 ∧
    (add_stamp_to_collection db0 "Nines" 0.999 "EUR" 1 none).1.stamps.map
      (fun s => s.euro_cents) = [99] ∧
    ((99 : ℤ) = 100 → False) := by
  decide

/-- C1, amended: for every `(value, currency)` pair accepted by
`add_stamp_to_collection` (currency exactly `"EUR"` or `"ITL"`), the stored
`euro_cents` equals the truncation toward zero (Python `int(...)`) of the
documented formula: `int(value × 100)` for EUR and
`int((value / 1936.27) × 100)` for ITL, and the call returns the fresh
rowid. -/
theorem add_stamp_euro_cents_formula (db : DB) (name : String) (value : ℚ)
    (currency : String) (n : ℤ) (prid : Option Nat)
    (h : currency = "EUR" ∨ currency = "ITL") :
    (add_stamp_to_collection db name value currency n prid).2 =
      Except.ok db.nextStampId ∧
    (add_stamp_to_collection db name value currency n prid).1.stamps =
      db.stamps ++
        [{ id := db.nextStampId, name := name, value := value,
           currency := currency,
           euro_cents :=
             if currency = "EUR" then pyIntTrunc (value * 100)
             else pyIntTrunc (value / 1936.27 * 100),
           n := n, postage_rate_id := prid, updated_at := 0 }] := by
  rcases h with h | h <;> subst h <;>
    simp [add_stamp_to_collection, euroCentsOf]

/-- Witness for C1's amended theorem at the spec's own ITL scenario. -/
theorem add_stamp_euro_cents_formula_witness :
    (add_stamp_to_collection db0 "Lira classic" 100 "ITL" 1 none).2 =
      Except.ok db0.nextStampId ∧
    (add_stamp_to_collection db0 "Lira classic" 100 "ITL" 1 none).1.stamps =
      db0.stamps ++
        [{ id := db0.nextStampId, name := "Lira classic", value := 100,
           currency := "ITL",
           euro_cents :=
             if "ITL" = "EUR" then pyIntTrunc ((100 : ℚ) * 100)
             else pyIntTrunc ((100 : ℚ) / 1936.27 * 100),
           n := 1, postage_rate_id := none, updated_at := 0 }] :=
  add_stamp_euro_cents_formula db0 "Lira classic" 100 "ITL" 1 none
    (Or.inr rfl)

/-- C2: adding `("Europa", 0.85, "EUR", n = 4)` to a fresh store succeeds
with rowid 1, stores `euro_cents = 85`, and `get_stamp_collection` returns
that stamp (joined with no rate name) with `n = 4`. -/
theorem europa_scenario :
    (add_stamp_to_collection db0 "Europa" 0.85 "EUR" 4 none).2 =
      Except.ok 1 ∧
    (add_stamp_to_collection db0 "Europa" 0.85 "EUR" 4 none).1.stamps =
      [{ id := 1, name := "Europa", value := 0.85, currency := "EUR",
         euro_cents := 85, n := 4, postage_rate_id := none,
         updated_at := 0 }] ∧
    get_stamp_collection (add_stamp_to_collection db0 "Europa" 0.85 "EUR"
        4 none).1 =
      [({ id := 1, name := "Europa", value := 0.85, currency := "EUR",
          euro_cents := 85, n := 4, postage_rate_id := none,
          updated_at := 0 }, none)] :=
  ⟨rfl, by decide, by decide⟩

/-- C3: any currency other than exactly `"EUR"` or `"ITL"` makes
`add_stamp_to_collection` fail with the `ValueError` and leaves the whole
store (in particular the stamps table) exactly as it was. -/
theorem invalid_currency_rejected (db : DB) (name : String) (value : ℚ)
    (currency : String) (n : ℤ) (prid : Option Nat)
    (h1 : currency ≠ "EUR") (h2 : currency ≠ "ITL") :
    add_stamp_to_collection db name value currency n prid =
      (db, Except.error "Currency must be EUR or ITL") := by
  simp [add_stamp_to_collection, euroCentsOf, h1, h2]

/-- Witness for C3 at the concrete currency `"USD"`. -/
theorem invalid_currency_rejected_witness :
    add_stamp_to_collection db0 "Liberty" 1 "USD" 1 none =
      (db0, Except.error "Currency must be EUR or ITL") :=
  invalid_currency_rejected db0 "Liberty" 1 "USD" 1 none
    (by decide) (by decide)

/-- C7: for a stamp id present in the store, `update_stamp_quantity` reports
a changed row (`rowcount > 0`), and every row carrying that id now has
`n` equal to the given quantity and `updated_at` refreshed to the call's
timestamp; at least one such row exists. -/
theorem update_stamp_quantity_found (db : DB) (i : Nat) (q : ℤ) (t : Nat)
    (h : ∃ s ∈ db.stamps, s.id = i) :
    (update_stamp_quantity db i q t).2 = true ∧
    (∃ s' ∈ (update_stamp_quantity db i q t).1.stamps,
      s'.id = i ∧ s'.n = q ∧ s'.updated_at = t) ∧
    (∀ s' ∈ (update_stamp_quantity db i q t).1.stamps,
      s'.id = i → s'.n = q ∧ s'.updated_at = t) := by
  obtain ⟨s, hs, hid⟩ := h
  refine ⟨?_, ?_, ?_⟩
  · simp only [update_stamp_quantity, List.any_eq_true]
    exact ⟨s, hs, by simp [hid]⟩
  · refine ⟨{ s with n := q, updated_at := t }, ?_, hid, rfl, rfl⟩
    simp only [update_stamp_quantity, List.mem_map]
    exact ⟨s, hs, by simp [hid]⟩
  · intro s' hs' hid'
    simp only [update_stamp_quantity, List.mem_map] at hs'
    obtain ⟨s₀, _, rfl⟩ := hs'
    by_cases h₀ : s₀.id = i
    · simp [h₀]
    · rw [if_neg h₀] at hid'
      exact absurd hid' h₀

/-- Witness for C7: updating the quantity of the stamp with id 1 after one
insert into a fresh store. -/
theorem update_stamp_quantity_found_witness :
    (update_stamp_quantity
        (add_stamp_to_collection db0 "Europa" 0.85 "EUR" 4 none).1 1 9 3).2 =
      true ∧
    (∃ s' ∈ (update_stamp_quantity
        (add_stamp_to_collection db0 "Europa" 0.85 "EUR" 4 none).1
        1 9 3).1.stamps, s'.id = 1 ∧ s'.n = 9 ∧ s'.updated_at = 3) ∧
    (∀ s' ∈ (update_stamp_quantity
        (add_stamp_to_collection db0 "Europa" 0.85 "EUR" 4 none).1
        1 9 3).1.stamps, s'.id = 1 → s'.n = 9 ∧ s'.updated_at = 3) :=
  update_stamp_quantity_found
    (add_stamp_to_collection db0 "Europa" 0.85 "EUR" 4 none).1 1 9 3
    ⟨{ id := 1, name := "Europa", value := 0.85, currency := "EUR",
       euro_cents := 85, n := 4, postage_rate_id := none, updated_at := 0 },
     by decide, rfl⟩

/-- C8: mutations that target a missing key are reported no-ops: with no
stamp carrying the given id, `update_stamp_quantity` and
`delete_stamp_from_collection` return `false` and leave the store untouched;
with no rate carrying the given name, `update_rate` and `delete_rate` do the
same. -/
theorem missing_key_mutations_noop (db : DB) (i : Nat) (q : ℤ) (t : Nat)
    (name : String) (v w : ℚ)
    (hs : ∀ s ∈ db.stamps, s.id ≠ i)
    (hr : ∀ r ∈ db.rates, r.name ≠ name) :
    update_stamp_quantity db i q t = (db, false) ∧
    delete_stamp_from_collection db i = (db, false) ∧
    update_rate db name v w t = (db, false) ∧
    delete_rate db name = (db, false) := by
  have hsmap : db.stamps.map (fun s =>
      if s.id = i then { s with n := q, updated_at := t } else s) =
        db.stamps :=
    map_eq_self_of _ _ (fun s hmem => if_neg (hs s hmem))
  have hsfil : db.stamps.filter (fun s => ¬ s.id = i) = db.stamps :=
    List.filter_eq_self.mpr (fun s hmem => by simpa using hs s hmem)
  have hsany : db.stamps.any (fun s => s.id = i) = false :=
    List.any_eq_false.mpr (fun s hmem => by simpa using hs s hmem)
  have hrmap : db.rates.map (fun r =>
      if r.name = name then
        { r with value := v, max_weight := w, updated_at := t }
      else r) = db.rates :=
    map_eq_self_of _ _ (fun r hmem => if_neg (hr r hmem))
  have hrfil : db.rates.filter (fun r => ¬ r.name = name) = db.rates :=
    List.filter_eq_self.mpr (fun r hmem => by simpa using hr r hmem)
  have hrany : db.rates.any (fun r => r.name = name) = false :=
    List.any_eq_false.mpr (fun r hmem => by simpa using hr r hmem)
  refine ⟨?_, ?_, ?_, ?_⟩
  · simp only [update_stamp_quantity, hsmap, hsany]
  · simp only [delete_stamp_from_collection, hsfil, hsany]
  · simp only [update_rate, hrmap, hrany]
  · simp only [delete_rate, hrfil, hrany]

/-- Witness for C8: missing id 7 and missing name `"Raccomandata"` on a
store holding one stamp and no rates. -/
theorem missing_key_mutations_noop_witness :
    update_stamp_quantity
        (add_stamp_to_collection db0 "Europa" 0.85 "EUR" 4 none).1 7 0 2 =
      ((add_stamp_to_collection db0 "Europa" 0.85 "EUR" 4 none).1, false) ∧
    delete_stamp_from_collection
        (add_stamp_to_collection db0 "Europa" 0.85 "EUR" 4 none).1 7 =
      ((add_stamp_to_collection db0 "Europa" 0.85 "EUR" 4 none).1, false) ∧
    update_rate (add_stamp_to_collection db0 "Europa" 0.85 "EUR" 4 none).1
        "Raccomandata" 5 20 2 =
      ((add_stamp_to_collection db0 "Europa" 0.85 "EUR" 4 none).1, false) ∧
    delete_rate (add_stamp_to_collection db0 "Europa" 0.85 "EUR" 4 none).1
        "Raccomandata" =
      ((add_stamp_to_collection db0 "Europa" 0.85 "EUR" 4 none).1, false) :=
  missing_key_mutations_noop
    (add_stamp_to_collection db0 "Europa" 0.85 "EUR" 4 none).1
    7 0 2 "Raccomandata" 5 20 (by decide) (by decide)

/-- C10: `update_stamp_quantity` is frame-bounded: the rates table and the
rowid counters are untouched, the stamp rows stay in place (pointwise), each
keeps its `id`, `name`, `value`, `currency`, `euro_cents` and
`postage_rate_id`, and a row whose id differs from the target is entirely
unchanged. -/
theorem update_stamp_quantity_frame (db : DB) (i : Nat) (q : ℤ) (t : Nat) :
    (update_stamp_quantity db i q t).1.rates = db.rates ∧
    (update_stamp_quantity db i q t).1.nextStampId = db.nextStampId ∧
    (update_stamp_quantity db i q t).1.nextRateId = db.nextRateId ∧
    List.Forall₂ (fun s s' : Stamp =>
        s'.id = s.id ∧ s'.name = s.name ∧ s'.value = s.value ∧
        s'.currency = s.currency ∧ s'.euro_cents = s.euro_cents ∧
        s'.postage_rate_id = s.postage_rate_id ∧
        (s.id ≠ i → s' = s))
      db.stamps (update_stamp_quantity db i q t).1.stamps := by
  refine ⟨rfl, rfl, rfl, ?_⟩
  apply forall₂_map_self
  intro s _
  by_cases hid : s.id = i
  · simp [hid]
  · simp [hid]

/-- C6: `clear_stamp_collection` empties the stamps table, returns the
number of stamp rows that existed before the call, and a
`get_stamp_collection` immediately afterwards returns an empty result. -/
theorem clear_stamp_collection_spec (db : DB) :
    (clear_stamp_collection db).2 = db.stamps.length ∧
    (clear_stamp_collection db).1.stamps = [] ∧
    get_stamp_collection (clear_stamp_collection db).1 = [] :=
  ⟨rfl, rfl, rfl⟩

/-- C9: `get_stamp_collection` returns exactly the stamps of the store (as a
permutation of the left join with the referenced rate's name), sorted by
stamp name ascending; a stamp whose `postage_rate_id` is NULL or dangling
still appears, with a null rate name; and `get_rate_by_name` on an absent
name returns `none` rather than raising. -/
theorem get_stamp_collection_join_sorted (db : DB) :
    (get_stamp_collection db).Perm
      (db.stamps.map (fun s => (s, rateNameFor db.rates s.postage_rate_id))) ∧
    List.Sorted stampRowLE (get_stamp_collection db) ∧
    (∀ s ∈ db.stamps,
      (s.postage_rate_id = none ∨
        ∀ r ∈ db.rates, some r.id ≠ s.postage_rate_id) →
      (s, (none : Option String)) ∈ get_stamp_collection db) ∧
    (∀ name, (∀ r ∈ db.rates, r.name ≠ name) →
      get_rate_by_name db name = none) := by
  refine ⟨List.perm_insertionSort _ _, List.sorted_insertionSort _ _,
    ?_, ?_⟩
  · intro s hs hnone
    have hjoin : rateNameFor db.rates s.postage_rate_id = none := by
      rcases hnone with hnone | hdangle
      · rw [hnone]; rfl
      · cases hp : s.postage_rate_id with
        | none => rfl
        | some i =>
            have : db.rates.find? (fun r => r.id = i) = none := by
              rw [List.find?_eq_none]
              intro r hr
              have := hdangle r hr
              rw [hp] at this
              simpa using this
            simp [rateNameFor, this]
    rw [get_stamp_collection, (List.perm_insertionSort _ _).mem_iff,
      List.mem_map]
    exact ⟨s, hs, by rw [hjoin]⟩
  · intro name h
    rw [get_rate_by_name, List.find?_eq_none]
    intro r hr
    simpa using h r hr

/-- Witness for C9: a stamp with a dangling `postage_rate_id` appears in the
listing with a null rate name, and looking up a never-added rate name
returns `none`. -/
theorem get_stamp_collection_join_sorted_witness :
    ({ id := 1, name := "Dangler", value := 1, currency := "EUR",
       euro_cents := 100, n := 2, postage_rate_id := some 42,
       updated_at := 0 }, (none : Option String)) ∈
      get_stamp_collection
        (add_stamp_to_collection db0 "Dangler" 1 "EUR" 2 (some 42)).1 ∧
    get_rate_by_name
        (add_stamp_to_collection db0 "Dangler" 1 "EUR" 2 (some 42)).1
        "Zona1" = none :=
  ⟨(get_stamp_collection_join_sorted
      (add_stamp_to_collection db0 "Dangler" 1 "EUR" 2 (some 42)).1).2.2.1
      _ (by decide)
      (Or.inr (fun r hr => absurd hr (List.not_mem_nil r))),
   (get_stamp_collection_join_sorted
      (add_stamp_to_collection db0 "Dangler" 1 "EUR" 2 (some 42)).1).2.2.2
      "Zona1" (fun r hr => absurd hr (List.not_mem_nil r))⟩

/-- C4: on every reachable store state, every stored stamp's `euro_cents` is
the conversion of its `(value, currency)` computed at insert time, and
`euro_cents` is written only by `add_stamp_to_collection`:
`update_stamp_quantity` preserves every row's `value`, `currency` and
`euro_cents` pointwise, deletion and clearing only remove rows, and the
postage-rate operations do not touch the stamps table at all. -/
theorem euro_cents_invariant :
    (∀ db, Reach db → StampsConverted db) ∧
    (∀ db i q t, List.Forall₂ (fun s s' : Stamp =>
        s'.value = s.value ∧ s'.currency = s.currency ∧
        s'.euro_cents = s.euro_cents)
      db.stamps (update_stamp_quantity db i q t).1.stamps) ∧
    (∀ db i, (delete_stamp_from_collection db i).1.stamps.Sublist
      db.stamps) ∧
    (∀ db, (clear_stamp_collection db).1.stamps = []) ∧
    (∀ db name v w, (add_postage_rate db name v w).1.stamps = db.stamps) ∧
    (∀ db name v w t, (update_rate db name v w t).1.stamps = db.stamps) ∧
    (∀ db name, (delete_rate db name).1.stamps = db.stamps) := by
  refine ⟨?_, ?_, ?_, fun _ => rfl, fun _ _ _ _ => rfl,
    fun _ _ _ _ _ => rfl, fun _ _ => rfl⟩
  · intro db h
    induction h with
    | init => intro s hs; exact absurd hs (List.not_mem_nil s)
    | add_stamp db name value currency n prid _ ih =>
        exact stampsConverted_add db name value currency n prid ih
    | upd_qty db i q t _ ih => exact stampsConverted_update db i q t ih
    | del_stamp db i _ ih => exact stampsConverted_delete db i ih
    | clear db _ _ => intro s hs; exact absurd hs (List.not_mem_nil s)
    | add_rate db name v w _ ih => exact ih
    | upd_rate db name v w t _ ih => exact ih
    | del_rate db name _ ih => exact ih
  · intro db i q t
    apply forall₂_map_self
    intro s _
    by_cases hid : s.id = i <;> simp [hid]
  · intro db i
    exact List.filter_sublist _

/-- Witness for C4 at a concrete reachable state: one insert followed by a
quantity update. -/
theorem euro_cents_invariant_witness :
    StampsConverted (update_stamp_quantity
      (add_stamp_to_collection db0 "Europa" 0.85 "EUR" 4 none).1 1 9 3).1 :=
  euro_cents_invariant.1 _
    (Reach.upd_qty _ 1 9 3
      (Reach.add_stamp db0 "Europa" 0.85 "EUR" 4 none Reach.init))

theorem rateNamesUnique_add_rate (db : DB) (name : String) (v w : ℚ)
    (h : RateNamesUnique db) :
    RateNamesUnique (add_postage_rate db name v w).1 := by
  unfold RateNamesUnique add_postage_rate
  simp only [List.pairwise_append]
  refine ⟨h.sublist (List.filter_sublist _), List.pairwise_singleton _ _, ?_⟩
  intro a ha b hb
  simp only [List.mem_singleton] at hb
  subst hb
  have := List.of_mem_filter ha
  simpa using this

theorem rateNamesUnique_update_rate (db : DB) (name : String) (v w : ℚ)
    (t : Nat) (h : RateNamesUnique db) :
    RateNamesUnique (update_rate db name v w t).1 := by
  unfold RateNamesUnique update_rate
  rw [List.pairwise_map]
  refine h.imp ?_
  intro a b hab
  have hfa : ∀ r : Rate, (if r.name = name then
      { r with value := v, max_weight := w, updated_at := t }
      else r).name = r.name := by
    intro r; by_cases hr : r.name = name <;> simp [hr]
  simpa [hfa] using hab

theorem rateNamesUnique_delete_rate (db : DB) (name : String)
    (h : RateNamesUnique db) :
    RateNamesUnique (delete_rate db name).1 :=
  h.sublist (List.filter_sublist _)

/-- C5: `add_postage_rate` with an already-present name replaces that row
wholesale — afterwards the rows carrying that name are exactly the one fresh
row (fresh id, the new `value` and `max_weight`), the fresh rowid is
returned, and `get_postage_rates` shows exactly one row with that name;
moreover on every reachable state no two postage rates share a name. -/
theorem add_postage_rate_upsert :
    (∀ db name v w,
      (add_postage_rate db name v w).1.rates.filter
          (fun r => r.name = name) =
        [{ id := db.nextRateId, name := name, value := v, max_weight := w,
           updated_at := 0 }] ∧
      (add_postage_rate db name v w).2 = db.nextRateId ∧
      (get_postage_rates (add_postage_rate db name v w).1).countP
          (fun r => r.name = name) = 1) ∧
    (∀ db, Reach db → RateNamesUnique db) := by
  have hfil : ∀ (db : DB) (name : String) (v w : ℚ),
      (add_postage_rate db name v w).1.rates.filter
          (fun r => r.name = name) =
        [{ id := db.nextRateId, name := name, value := v, max_weight := w,
           updated_at := 0 }] := by
    intro db name v w
    unfold add_postage_rate
    rw [List.filter_append]
    have h1 : (db.rates.filter (fun r => ¬ r.name = name)).filter
        (fun r => r.name = name) = [] := by
      rw [List.filter_eq_nil_iff]
      intro r hr
      have := List.of_mem_filter hr
      simpa using this
    rw [h1]
    simp
  constructor
  · intro db name v w
    refine ⟨hfil db name v w, rfl, ?_⟩
    rw [get_postage_rates,
      (List.perm_insertionSort rateLE _).countP_eq,
      List.countP_eq_length_filter, hfil db name v w]
    rfl
  · intro db h
    induction h with
    | init => exact List.Pairwise.nil
    | add_stamp db name value currency n prid _ ih =>
        show (add_stamp_to_collection db name value currency n
          prid).1.rates.Pairwise _
        rw [add_stamp_rates_unchanged]
        exact ih
    | upd_qty db i q t _ ih => exact ih
    | del_stamp db i _ ih => exact ih
    | clear db _ ih => exact ih
    | add_rate db name v w _ ih => exact rateNamesUnique_add_rate db name v w ih
    | upd_rate db name v w t _ ih =>
        exact rateNamesUnique_update_rate db name v w t ih
    | del_rate db name _ ih => exact rateNamesUnique_delete_rate db name ih

/-- Witness for C5: adding `"Zona1"` twice to a fresh store leaves exactly
the second (replaced) row under that name, and the reachable two-step state
has unique rate names. -/
theorem add_postage_rate_upsert_witness :
    (add_postage_rate (add_postage_rate db0 "Zona1" 1 20).1 "Zona1"
        2 50).1.rates.filter (fun r => r.name = "Zona1") =
      [{ id := (add_postage_rate db0 "Zona1" 1 20).1.nextRateId,
         name := "Zona1", value := 2, max_weight := 50,
         updated_at := 0 }] ∧
    RateNamesUnique
      (add_postage_rate (add_postage_rate db0 "Zona1" 1 20).1 "Zona1"
        2 50).1 :=
  ⟨(add_postage_rate_upsert.1 (add_postage_rate db0 "Zona1" 1 20).1
      "Zona1" 2 50).1,
   add_postage_rate_upsert.2 _
     (Reach.add_rate _ "Zona1" 2 50
       (Reach.add_rate db0 "Zona1" 1 20 Reach.init))⟩

end

end StampDB
